import Mathlib

/-!
Shallow embedding of the hook-decision policy engine and multi-session
utterance queueing system of mcp-voice-hooks (src/unified-server.ts and
src/session-manager.ts), together with theorems checking the claims of
the specification against it.

Modelling conventions:
* JavaScript `Date` values are modelled as `Int` milliseconds since the
  epoch (`Date.getTime()`).
* The process runs on a single-threaded event loop, so every request
  handler is a pure function from the shared server state to a result
  and an updated state.
* `Map` objects keyed by session id are modelled as lists in insertion
  order; `Map.set` of a fresh key appends, and updates rewrite the entry
  with the matching key.
* Randomly generated UUIDs are supplied as explicit parameters or stated
  as uniqueness hypotheses where a proof needs them.
-/

namespace VoiceHooks

/-- Lifecycle status of a voice utterance (`Utterance.status` in
src/unified-server.ts: `'pending' | 'delivered' | 'responded'`). -/
inductive Status where
  | pending
  | delivered
  | responded
  deriving DecidableEq, Repr

/-- One unit of transcribed voice input (`interface Utterance` in
src/unified-server.ts). -/
structure Utterance where
  id : String
  text : String
  timestamp : Int
  status : Status
  deriving DecidableEq, Repr

/-- The mutable utterance collection (`class UtteranceQueue` in
src/unified-server.ts; the per-session `InMemoryUtteranceQueue` exposes the
same `utterances` array and `markDelivered` operation). -/
structure UtteranceQueue where
  utterances : List Utterance
  deriving DecidableEq, Repr

/-- Mark the first utterance with the given id as delivered
(`markDelivered` walks `this.utterances.find(u => u.id === id)` and sets
its status). -/
def markDeliveredList : List Utterance → String → List Utterance
  | [], _ => []
  | u :: us, i =>
    if u.id = i then { u with status := Status.delivered } :: us
    else u :: markDeliveredList us i

/-- `UtteranceQueue.markDelivered(id)` from src/unified-server.ts. -/
def UtteranceQueue.markDelivered (q : UtteranceQueue) (i : String) : UtteranceQueue :=
  ⟨markDeliveredList q.utterances i⟩

/-- The expression `queue.utterances.filter(u => u.status === 'pending')`
used throughout src/unified-server.ts. -/
def UtteranceQueue.pendingList (q : UtteranceQueue) : List Utterance :=
  q.utterances.filter (fun u => u.status == Status.pending)

/-- The expression `queue.utterances.filter(u => u.status === 'delivered')`
used throughout src/unified-server.ts. -/
def UtteranceQueue.deliveredList (q : UtteranceQueue) : List Utterance :=
  q.utterances.filter (fun u => u.status == Status.delivered)

/-- Per-session metadata bag (`SessionInfo.metadata` in
src/session-manager.ts). -/
structure SessionMetadata where
  workingDirectory : Option String
  userAgent : Option String
  clientVersion : Option String
  deriving DecidableEq, Repr

/-- One registered session (`interface SessionInfo` in
src/session-manager.ts). -/
structure SessionInfo where
  id : String
  projectPath : Option String
  projectName : Option String
  lastActivity : Int
  isActive : Bool
  utteranceQueue : UtteranceQueue
  metadata : SessionMetadata
  deriving DecidableEq, Repr

/-- Caller-supplied session hints (`interface SessionData` in
src/session-manager.ts). -/
structure SessionData where
  sessionId : Option String
  projectPath : Option String
  workingDirectory : Option String
  userAgent : Option String
  clientVersion : Option String
  transcriptPath : Option String
  deriving DecidableEq, Repr

/-- The mutable state of `class SessionManager`: the `sessions` map (kept
in insertion order) and the nullable `activeSessionId` pointer. -/
structure SessionManagerState where
  sessions : List SessionInfo
  activeSessionId : Option String
  deriving DecidableEq, Repr

/-- JavaScript truthiness of an optional string: `undefined` and `''` are
falsy, every other string is truthy. -/
def strTruthy : Option String → Bool
  | none => false
  | some s => !(s == "")

/-- JavaScript `x || d` on an optional string `x` and default `d`. -/
def strOrD : Option String → String → String
  | none, d => d
  | some s, d => if s = "" then d else s

/-- Wrap an integer to a signed 32-bit value, as JavaScript bitwise
operators do (`hash & hash` in `simpleHash`). -/
def toInt32 (x : Int) : Int :=
  (x + 2147483648) % 4294967296 - 2147483648

/-- One step of `simpleHash`: `hash = ((hash << 5) - hash) + char` followed
by `hash = hash & hash` (src/session-manager.ts). The shift operates on the
32-bit value, the add runs exactly in doubles, and the final `&` truncates
back to 32 bits. -/
def hashStep (h : Int) (c : Nat) : Int :=
  toInt32 (toInt32 (h * 32) - h + c)

/-- Character for one base-36 digit, as produced by JavaScript
`Number.prototype.toString(36)`: `0`-`9` then `a`-`z`. -/
def digit36 (n : Nat) : Char :=
  if n < 10 then Char.ofNat (48 + n) else Char.ofNat (87 + n)

/-- Digit-accumulation loop for base-36 rendering.  The first argument is
fuel (structural recursion keeps the definition kernel-evaluable); the
fuel `n` always suffices for the number `n` because `n / 36 < n`. -/
def toBase36Go : Nat → Nat → List Char → List Char
  | 0, _, acc => acc
  | fuel + 1, n, acc =>
    if n = 0 then acc
    else toBase36Go fuel (n / 36) (digit36 (n % 36) :: acc)

/-- JavaScript `n.toString(36)` for a natural number. -/
def toBase36 (n : Nat) : String :=
  if n = 0 then "0" else ⟨toBase36Go n n []⟩

/-- `SessionManager.simpleHash` (src/session-manager.ts): a 32-bit rolling
hash over the UTF-16 code units, rendered as `session_` plus the base-36
digits of its absolute value. -/
def simpleHash (s : String) : String :=
  "session_" ++ toBase36 (Int.natAbs (s.data.foldl (fun h c => hashStep h c.toNat) 0))

/-- Drop everything from the first occurrence of `/.claude/` to the end of
the string: the effect of `transcriptPath.replace(/\/\.claude\/.*$/, '')`
in `SessionManager.extractProjectPath`. -/
def dropClaudeTail : List Char → List Char
  | [] => []
  | c :: cs =>
    if List.isPrefixOf ('/' :: '.' :: 'c' :: 'l' :: 'a' :: 'u' :: 'd' :: 'e' :: '/' :: []) (c :: cs)
    then []
    else c :: dropClaudeTail cs

/-- String form of `dropClaudeTail`. -/
def stripClaudeTail (s : String) : String :=
  ⟨dropClaudeTail s.data⟩

/-- `SessionManager.extractProjectPath` (src/session-manager.ts): explicit
project path, else the transcript path with its `/.claude/...` tail
stripped (when that changes it), else the working directory. -/
def extractProjectPath (d : SessionData) : Option String :=
  if strTruthy d.projectPath then d.projectPath
  else if strTruthy d.transcriptPath then
    let tp := (d.transcriptPath.getD "")
    let transcriptDir := stripClaudeTail tp
    if transcriptDir ≠ tp then some transcriptDir else d.workingDirectory
  else d.workingDirectory

/-- Split a character list on `/` separators (the `split('/')` of
`extractProjectName`); written on character lists so that it evaluates in
the kernel. -/
def splitSlashGo : List Char → List Char → List (List Char)
  | [], acc => [acc.reverse]
  | c :: cs, acc =>
    if c = '/' then acc.reverse :: splitSlashGo cs [] else splitSlashGo cs (c :: acc)

/-- `SessionManager.extractProjectName`: last nonempty segment of the path
after normalizing backslashes to slashes
(`projectPath.replace(/\\/g, '/').split('/').filter(p => p.length > 0)`,
then the last part). -/
def extractProjectName : Option String → Option String
  | none => none
  | some projectPath =>
    let normalized := projectPath.data.map (fun c => if c = '\\' then '/' else c)
    let parts := (splitSlashGo normalized []).filter (fun p => p.length > 0)
    (parts.getLast?).map (fun p => String.mk p)

/-- `SessionManager.generateSessionId` (src/session-manager.ts): a provided
session id wins; else, when both project path and working directory are
missing, the key is seeded with the current `Date.now()` timestamp; else a
deterministic composite key.  The key is then hashed by `simpleHash`. -/
def generateSessionId (d : SessionData) (now : Int) : String :=
  match d.sessionId with
  | some sid => sid
  | none =>
    let projectPath := extractProjectPath d
    let workingDir := d.workingDirectory
    let userAgent := d.userAgent
    let sessionKey :=
      if strTruthy projectPath = false ∧ strTruthy workingDir = false then
        "session_" ++ toString now ++ ":" ++ (userAgent.getD "unknown")
      else
        strOrD projectPath "no-path" ++ ":" ++ strOrD workingDir "no-workdir" ++ ":"
          ++ strOrD userAgent "no-useragent"
    simpleHash sessionKey

/-- `SessionManager.registerSession` (src/session-manager.ts): creates the
session when its id is new (the first-ever session becomes active), or
refreshes `lastActivity`, re-activates, and merges metadata when the id is
already registered.  Returns the session id and the new manager state. -/
def registerSession (m : SessionManagerState) (d : SessionData) (now : Int) :
    String × SessionManagerState :=
  let sessionId := generateSessionId d now
  let projectPath := extractProjectPath d
  let projectName := extractProjectName projectPath
  match m.sessions.find? (fun s => s.id == sessionId) with
  | none =>
    let session : SessionInfo :=
      { id := sessionId
        projectPath := projectPath
        projectName := projectName
        lastActivity := now
        isActive := true
        utteranceQueue := ⟨[]⟩
        metadata :=
          { workingDirectory := d.workingDirectory
            userAgent := d.userAgent
            clientVersion := d.clientVersion } }
    let sessions' := m.sessions ++ [session]
    let active' := if m.activeSessionId = none then some sessionId else m.activeSessionId
    (sessionId, ⟨sessions', active'⟩)
  | some _ =>
    let sessions' := m.sessions.map (fun s =>
      if s.id = sessionId then
        { s with
          lastActivity := now
          isActive := true
          projectPath := if strTruthy projectPath then projectPath else s.projectPath
          projectName := if strTruthy projectPath then projectName else s.projectName
          metadata :=
            { workingDirectory :=
                if strTruthy d.workingDirectory then d.workingDirectory
                else s.metadata.workingDirectory
              userAgent :=
                if strTruthy d.userAgent then d.userAgent else s.metadata.userAgent
              clientVersion :=
                if strTruthy d.clientVersion then d.clientVersion
                else s.metadata.clientVersion } }
      else s)
    (sessionId, ⟨sessions', m.activeSessionId⟩)

/-- `SessionManager.getAllSessions`: snapshot of the sessions sorted by
`lastActivity` descending (JavaScript's stable `sort`). -/
def getAllSessions (m : SessionManagerState) : List SessionInfo :=
  List.insertionSort (fun a b => b.lastActivity ≤ a.lastActivity) m.sessions

/-- `SessionManager.getActiveSession`: the session the active pointer
refers to, when both exist. -/
def getActiveSession (m : SessionManagerState) : Option SessionInfo :=
  match m.activeSessionId with
  | none => none
  | some aid => m.sessions.find? (fun s => s.id == aid)

/-- `SessionManager.markSessionInactive` (src/session-manager.ts): sets
`isActive=false` and refreshes `lastActivity`; when the deactivated session
was active, the most-recently-active remaining `isActive` session (or none)
becomes active. -/
def markSessionInactive (m : SessionManagerState) (sessionId : String) (now : Int) :
    SessionManagerState :=
  match m.sessions.find? (fun s => s.id == sessionId) with
  | none => m
  | some _ =>
    let sessions' := m.sessions.map (fun s =>
      if s.id = sessionId then { s with isActive := false, lastActivity := now } else s)
    let active' :=
      if m.activeSessionId = some sessionId then
        let activeSessions :=
          List.insertionSort (fun a b => b.lastActivity ≤ a.lastActivity)
            (sessions'.filter (fun s => s.isActive && !(s.id == sessionId)))
        (activeSessions.head?).map (fun s => s.id)
      else m.activeSessionId
    ⟨sessions', active'⟩

/-- `SessionManager.removeSession` (src/session-manager.ts): deletes the
session; when it was active, the most-recently-active remaining `isActive`
session (or none) becomes active. -/
def removeSession (m : SessionManagerState) (sessionId : String) : SessionManagerState :=
  match m.sessions.find? (fun s => s.id == sessionId) with
  | none => m
  | some _ =>
    let sessions' := m.sessions.filter (fun s => !(s.id == sessionId))
    let active' :=
      if m.activeSessionId = some sessionId then
        let activeSessions :=
          List.insertionSort (fun a b => b.lastActivity ≤ a.lastActivity)
            (sessions'.filter (fun s => s.isActive))
        (activeSessions.head?).map (fun s => s.id)
      else m.activeSessionId
    ⟨sessions', active'⟩

/-- The process-wide voice preferences controlled by the browser
(`voicePreferences` in src/unified-server.ts). -/
structure VoicePreferences where
  voiceResponsesEnabled : Bool
  voiceInputActive : Bool
  deriving DecidableEq, Repr

/-- The shared mutable state of src/unified-server.ts: the session
manager, the legacy global queue kept for backward compatibility, the two
global timestamps, and the voice preferences. -/
structure ServerState where
  sessionManager : SessionManagerState
  queue : UtteranceQueue
  lastToolUseTimestamp : Option Int
  lastSpeakTimestamp : Option Int
  voicePreferences : VoicePreferences
  deriving DecidableEq, Repr

/-- `WAIT_TIMEOUT_SECONDS` from src/unified-server.ts. -/
def WAIT_TIMEOUT_SECONDS : Nat := 60

/-- The two environment-configured auto-delivery toggles
(`AUTO_DELIVER_VOICE_INPUT` and `AUTO_DELIVER_VOICE_INPUT_BEFORE_TOOLS`
in src/unified-server.ts), read once at startup. -/
structure HookConfig where
  autoDeliverVoiceInput : Bool
  autoDeliverVoiceInputBeforeTools : Bool
  deriving DecidableEq, Repr

/-- All pending utterances held in per-session queues. -/
def sessionsPending (st : ServerState) : List Utterance :=
  st.sessionManager.sessions.flatMap (fun s => s.utteranceQueue.pendingList)

/-- All pending utterances held anywhere: in any per-session queue or in
the legacy global queue. -/
def pendingAnywhere (st : ServerState) : List Utterance :=
  sessionsPending st ++ st.queue.pendingList

/-- All delivered utterances held anywhere: in any per-session queue or in
the legacy global queue. -/
def deliveredAnywhere (st : ServerState) : List Utterance :=
  st.sessionManager.sessions.flatMap (fun s => s.utteranceQueue.deliveredList)
    ++ st.queue.deliveredList

/-- One pending utterance together with its owning queue, as collected by
`dequeueUtterancesCore` (`source: 'global' | 'session'` with an optional
session id; `sessionId = none` stands for the legacy global queue). -/
structure PendingItem where
  utterance : Utterance
  sessionId : Option String
  deriving DecidableEq, Repr

/-- The collection phase of `dequeueUtterancesCore`
(src/unified-server.ts): pending utterances of the active session first,
then of every other session in `getAllSessions` order, then of the legacy
global queue. -/
def collectPendingItems (st : ServerState) : List PendingItem :=
  let activeSession := getActiveSession st.sessionManager
  let fromActive :=
    match activeSession with
    | some a => a.utteranceQueue.pendingList.map (fun u => ⟨u, some a.id⟩)
    | none => []
  let others := (getAllSessions st.sessionManager).filter (fun s =>
    match activeSession with
    | some a => !(s.id == a.id)
    | none => true)
  let fromOthers :=
    others.flatMap (fun s => s.utteranceQueue.pendingList.map (fun u => ⟨u, some s.id⟩))
  fromActive ++ fromOthers ++ st.queue.pendingList.map (fun u => ⟨u, none⟩)

/-- Mark one collected item delivered in its owning queue (the marking
loop of `dequeueUtterancesCore`): the legacy global queue for a `'global'`
source, otherwise the queue of the session `getSession(sessionId)`
resolves to. -/
def markPendingItem (st : ServerState) (it : PendingItem) : ServerState :=
  match it.sessionId with
  | none => { st with queue := st.queue.markDelivered it.utterance.id }
  | some sid =>
    { st with
      sessionManager :=
        { st.sessionManager with
          sessions := st.sessionManager.sessions.map (fun s =>
            if s.id = sid then
              { s with utteranceQueue := s.utteranceQueue.markDelivered it.utterance.id }
            else s) } }

/-- Text and timestamp of a dequeued utterance, the shape
`dequeueUtterancesCore` returns. -/
structure DequeuedUtterance where
  text : String
  timestamp : Int
  deriving DecidableEq, Repr

/-- The result object of `dequeueUtterancesCore`. -/
structure DequeueResult where
  success : Bool
  error : Option String
  utterances : Option (List DequeuedUtterance)
  deriving DecidableEq, Repr

/-- `dequeueUtterancesCore` (src/unified-server.ts): fails when voice
input is not active; otherwise collects all pending utterances across
every session queue and the legacy global queue, sorts them newest-first
(stable), marks each as delivered in its owning queue, and returns their
text and timestamp in that order. -/
def dequeueUtterancesCore (st : ServerState) : DequeueResult × ServerState :=
  if st.voicePreferences.voiceInputActive = false then
    (⟨false,
      some "Voice input is not active. Cannot dequeue utterances when voice input is disabled.",
      none⟩, st)
  else
    let allPendingUtterances :=
      List.insertionSort (fun a b => b.utterance.timestamp ≤ a.utterance.timestamp)
        (collectPendingItems st)
    let st' := allPendingUtterances.foldl markPendingItem st
    (⟨true, none,
      some (allPendingUtterances.map (fun it => ⟨it.utterance.text, it.utterance.timestamp⟩))⟩,
     st')

/-- HTTP status of `POST /api/dequeue-utterances`: 400 when the core
returned a failure with an error, 200 otherwise. -/
def dequeueHttpStatus (r : DequeueResult) : Nat :=
  if r.success = false ∧ strTruthy r.error then 400 else 200

/-- The shape of an utterance in the `waitForUtteranceCore` success
payload (`id`, `text`, `timestamp`, and `status: 'delivered'`). -/
structure WaitUtteranceOut where
  id : String
  text : String
  timestamp : Int
  status : Status
  deriving DecidableEq, Repr

/-- The result object of `waitForUtteranceCore`.  The `waitTime`
millisecond counter of the source is not modelled: real time is abstracted
into the list of 100ms poll ticks. -/
structure WaitResult where
  success : Bool
  error : Option String
  utterances : Option (List WaitUtteranceOut)
  message : Option String
  count : Option Nat
  deriving DecidableEq, Repr

/-- One poll iteration's view of all pending utterances, in the fixed scan
order of `waitForUtteranceCore`: active session first, then the other
sessions in `getAllSessions` order, then the legacy global queue. -/
def collectPendingWait (st : ServerState) : List Utterance :=
  let activeSession := getActiveSession st.sessionManager
  let fromActive :=
    match activeSession with
    | some a => a.utteranceQueue.pendingList
    | none => []
  let others := (getAllSessions st.sessionManager).filter (fun s =>
    match activeSession with
    | some a => !(s.id == a.id)
    | none => true)
  fromActive ++ others.flatMap (fun s => s.utteranceQueue.pendingList)
    ++ st.queue.pendingList

/-- Whether a session's queue holds an utterance with the given id (the
`find(u => u.id === utterance.id)` probes of `waitForUtteranceCore`). -/
def sessionHasUtterance (s : SessionInfo) (uid : String) : Bool :=
  s.utteranceQueue.utterances.any (fun u => u.id == uid)

/-- Rewrite one session's queue by `markDelivered` (the
`session.utteranceQueue.markDelivered(id)` call on the session map). -/
def markSessionQueue (st : ServerState) (sid : String) (uid : String) : ServerState :=
  { st with
    sessionManager :=
      { st.sessionManager with
        sessions := st.sessionManager.sessions.map (fun s =>
          if s.id = sid then
            { s with utteranceQueue := s.utteranceQueue.markDelivered uid }
          else s) } }

/-- The non-active part of the per-utterance marking of
`waitForUtteranceCore`: every other session whose queue holds the id marks
it (the `forEach` has no early exit), and only when none does is the
legacy global queue probed. -/
def markWaitOthersThenGlobal (st : ServerState) (activeId : Option String) (uid : String) :
    ServerState :=
  let others := (getAllSessions st.sessionManager).filter (fun s =>
    match activeId with
    | some aid => !(s.id == aid)
    | none => true)
  if others.any (fun s => sessionHasUtterance s uid) then
    others.foldl (fun acc s =>
      if sessionHasUtterance s uid then markSessionQueue acc s.id uid else acc) st
  else if st.queue.utterances.any (fun u => u.id == uid) then
    { st with queue := st.queue.markDelivered uid }
  else st

/-- The per-utterance marking of `waitForUtteranceCore`: the active
session's queue first, else the other sessions, else the legacy global
queue. -/
def markWaitDelivered (st : ServerState) (uid : String) : ServerState :=
  match getActiveSession st.sessionManager with
  | some a =>
    if sessionHasUtterance a uid then markSessionQueue st a.id uid
    else markWaitOthersThenGlobal st (some a.id) uid
  | none => markWaitOthersThenGlobal st none uid

/-- The timed-out result of `waitForUtteranceCore`. -/
def waitTimeoutResult : WaitResult :=
  ⟨true, none, some [],
   some ("No utterances found after waiting " ++ toString WAIT_TIMEOUT_SECONDS ++ " seconds."),
   none⟩

/-- The result `waitForUtteranceCore` returns when voice input is
deactivated during the wait. -/
def waitDeactivatedResult : WaitResult :=
  ⟨true, none, some [], some "Voice input was deactivated", none⟩

/-- The failure result of `waitForUtteranceCore` when voice input is not
active at entry. -/
def waitNotActiveResult : WaitResult :=
  ⟨false,
   some "Voice input is not active. Cannot wait for utterances when voice input is disabled.",
   none, none, none⟩

/-- The success result of one poll iteration of `waitForUtteranceCore`
that found pending utterances: sorted oldest-first, marked delivered in
their owning queues, returned with count. -/
def waitFound (st : ServerState) (pendingUtterances : List Utterance) :
    WaitResult × ServerState :=
  let sortedUtterances :=
    List.insertionSort (fun a b => a.timestamp ≤ b.timestamp) pendingUtterances
  let st' := sortedUtterances.foldl (fun acc u => markWaitDelivered acc u.id) st
  (⟨true, none,
    some (sortedUtterances.map (fun u => ⟨u.id, u.text, u.timestamp, Status.delivered⟩)),
    none, some pendingUtterances.length⟩, st')

/-- The polling loop of `waitForUtteranceCore`.  Real time is abstracted:
each element of `envs` is the net effect of the other event-loop turns
that run during one 100ms sleep (new utterances arriving, preference
toggles, ...), applied to the shared state before the next poll; the loop
times out when `envs` is exhausted, which models the 60-second deadline
(600 sleeps of 100ms) expiring. -/
def waitLoop : ServerState → List (ServerState → ServerState) → WaitResult × ServerState
  | st, [] =>
    if st.voicePreferences.voiceInputActive = false then
      (waitDeactivatedResult, st)
    else
      let pendingUtterances := collectPendingWait st
      if pendingUtterances.isEmpty then (waitTimeoutResult, st)
      else waitFound st pendingUtterances
  | st, e :: es =>
    if st.voicePreferences.voiceInputActive = false then
      (waitDeactivatedResult, st)
    else
      let pendingUtterances := collectPendingWait st
      if pendingUtterances.isEmpty then waitLoop (e st) es
      else waitFound st pendingUtterances

/-- `waitForUtteranceCore` (src/unified-server.ts): fails when voice input
is not active at entry, otherwise polls until deactivation, found
utterances, or timeout. -/
def waitForUtteranceCore (st : ServerState) (envs : List (ServerState → ServerState)) :
    WaitResult × ServerState :=
  if st.voicePreferences.voiceInputActive = false then
    (waitNotActiveResult, st)
  else waitLoop st envs

/-- HTTP status of `POST /api/wait-for-utterances`: 400 when the core
returned a failure with an error, 200 otherwise. -/
def waitHttpStatus (r : WaitResult) : Nat :=
  if r.success = false ∧ strTruthy r.error then 400 else 200

/-- The five attempted actions of the hook decision engine, the argument
of `handleHookRequest` (`'tool' | 'speak' | 'wait' | 'stop' |
'post-tool'`). -/
inductive HookAction where
  | tool
  | speak
  | wait
  | stop
  | postTool
  deriving DecidableEq, Repr

/-- A hook verdict. -/
inductive Decision where
  | approve
  | block
  deriving DecidableEq, Repr

/-- The `{decision, reason?}` object a hook endpoint returns. -/
structure HookResult where
  decision : Decision
  reason : Option String
  deriving DecidableEq, Repr

/-- `getVoiceResponseReminder` (src/unified-server.ts). -/
def getVoiceResponseReminder (voiceResponsesEnabled : Bool) : String :=
  if voiceResponsesEnabled then
    "\n\nThe user has enabled voice responses, so use the \x27speak\x27 tool to respond to the user\x27s voice input before proceeding."
  else ""

/-- `formatVoiceUtterances` (src/unified-server.ts), applied to the texts
of the utterances being delivered. -/
def formatVoiceUtterances (texts : List String) (voiceResponsesEnabled : Bool) : String :=
  let utteranceTexts := String.intercalate "\n" (texts.map (fun t => "\"" ++ t ++ "\""))
  "Assistant received voice input from the user (" ++ toString texts.length
    ++ " utterance" ++ (if texts.length ≠ 1 then "s" else "") ++ "):\n\n"
    ++ utteranceTexts ++ getVoiceResponseReminder voiceResponsesEnabled

/-- The gate-1 block reason of manual mode: `N pending utterance(s)
available. Use the dequeue_utterances tool to retrieve them.` -/
def manualPendingReason (n : Nat) : String :=
  toString n ++ " pending utterance(s) available. Use the dequeue_utterances tool to retrieve them."

/-- The gate-2 block reason: `N delivered utterance(s) require voice
response. Please use the speak tool to respond before proceeding.` -/
def deliveredGateReason (n : Nat) : String :=
  toString n
    ++ " delivered utterance(s) require voice response. Please use the speak tool to respond before proceeding."

/-- Whether the assistant used a tool more recently than it last spoke
(`lastToolUseTimestamp && (!lastSpeakTimestamp || lastSpeakTimestamp <
lastToolUseTimestamp)` in `handleHookRequest`). -/
def mustSpeakViolated (st : ServerState) : Bool :=
  match st.lastToolUseTimestamp with
  | none => false
  | some toolT =>
    match st.lastSpeakTimestamp with
    | none => true
    | some speakT => speakT < toolT

/-- Steps 2-6 of `handleHookRequest` (src/unified-server.ts), run after
the pending-utterance gate has passed or been skipped: the
delivered-but-unresponded gate, then the action-specific handling. -/
def hookAfterPendingGate (cfg : HookConfig) (action : HookAction) (st : ServerState)
    (now : Int) (envs : List (ServerState → ServerState)) : HookResult × ServerState :=
  let voiceResponsesEnabled := st.voicePreferences.voiceResponsesEnabled
  let voiceInputActive := st.voicePreferences.voiceInputActive
  let deliveredUtterances := st.queue.deliveredList
  if voiceResponsesEnabled = true ∧ deliveredUtterances.isEmpty = false then
    if action = HookAction.speak then (⟨Decision.approve, none⟩, st)
    else (⟨Decision.block, some (deliveredGateReason deliveredUtterances.length)⟩, st)
  else if action = HookAction.tool ∨ action = HookAction.postTool then
    (⟨Decision.approve, none⟩, { st with lastToolUseTimestamp := some now })
  else if action = HookAction.wait then
    if voiceResponsesEnabled = true ∧ mustSpeakViolated st = true then
      (⟨Decision.block,
        some "Assistant must speak after using tools. Please use the speak tool to respond before waiting for utterances."⟩,
       st)
    else (⟨Decision.approve, none⟩, st)
  else if action = HookAction.speak then (⟨Decision.approve, none⟩, st)
  else
    -- action = stop
    if voiceResponsesEnabled = true ∧ mustSpeakViolated st = true then
      (⟨Decision.block,
        some "Assistant must speak after using tools. Please use the speak tool to respond before proceeding."⟩,
       st)
    else if voiceInputActive = true then
      if cfg.autoDeliverVoiceInput = true then
        -- auto-wait; the try/catch fail-open branch of the source is
        -- unreachable here because the embedded wait is a total function
        let (data, st') := waitForUtteranceCore st envs
        if data.success = false ∧ strTruthy data.error then
          (⟨Decision.approve, data.error⟩, st')
        else if (data.utterances.getD []).isEmpty = false then
          (⟨Decision.block,
            some (formatVoiceUtterances ((data.utterances.getD []).map (fun u => u.text))
              st'.voicePreferences.voiceResponsesEnabled)⟩,
           st')
        else
          (⟨Decision.approve, some (strOrD data.message "No utterances found during wait")⟩, st')
      else
        (⟨Decision.block,
          some "Assistant tried to end its response, but voice input is active. Stopping is not allowed without first checking for voice input. Assistant should now use wait_for_utterance to check for voice input"⟩,
         st)
    else (⟨Decision.approve, some "No utterances since last timeout"⟩, st)

/-- `handleHookRequest` (src/unified-server.ts): the pending-utterance
gate over the legacy global queue, then `hookAfterPendingGate`. -/
def handleHookRequest (cfg : HookConfig) (action : HookAction) (st : ServerState)
    (now : Int) (envs : List (ServerState → ServerState)) : HookResult × ServerState :=
  let voiceInputActive := st.voicePreferences.voiceInputActive
  let pendingUtterances := st.queue.pendingList
  if voiceInputActive = true ∧ pendingUtterances.isEmpty = false then
    if cfg.autoDeliverVoiceInput = true then
      if action = HookAction.tool ∧ cfg.autoDeliverVoiceInputBeforeTools = false then
        -- skip auto-delivery for tools when the sub-toggle is off
        hookAfterPendingGate cfg action st now envs
      else
        let (dequeueResult, st') := dequeueUtterancesCore st
        match dequeueResult.utterances with
        | some utts =>
          if dequeueResult.success = true ∧ utts.isEmpty = false then
            (⟨Decision.block,
              some (formatVoiceUtterances (utts.reverse.map (fun u => u.text))
                st'.voicePreferences.voiceResponsesEnabled)⟩,
             st')
          else hookAfterPendingGate cfg action st' now envs
        | none => hookAfterPendingGate cfg action st' now envs
    else
      (⟨Decision.block, some (manualPendingReason pendingUtterances.length)⟩, st)
  else hookAfterPendingGate cfg action st now envs

/-- The response of `POST /api/speak`. -/
structure SpeakResponse where
  status : Nat
  error : Option String
  message : Option String
  respondedCount : Option Nat
  sessionId : Option String
  sessionName : Option String
  deriving DecidableEq, Repr

/-- The attribution scan of `POST /api/speak`: the active session when it
holds delivered utterances, else the first session of `getAllSessions`
holding delivered utterances, else the legacy global queue, else
unattributed. -/
def speakAttribution (st : ServerState) : Option String × Option String :=
  let fromActive :=
    match getActiveSession st.sessionManager with
    | some a =>
      if a.utteranceQueue.deliveredList.isEmpty = false then some (a.id, a.projectName)
      else none
    | none => none
  match fromActive with
  | some r => (some r.1, r.2)
  | none =>
    match (getAllSessions st.sessionManager).find? (fun s =>
        !s.utteranceQueue.deliveredList.isEmpty) with
    | some s => (some s.id, s.projectName)
    | none =>
      if st.queue.deliveredList.isEmpty = false then (some "global", some "Global Queue")
      else (none, none)

/-- JavaScript `text.trim()`: strip whitespace from both ends; written on
the character list so that it evaluates in the kernel. -/
def jsTrim (text : String) : String :=
  ⟨((text.data.dropWhile Char.isWhitespace).reverse.dropWhile Char.isWhitespace).reverse⟩

/-- The `POST /api/speak` handler (src/unified-server.ts): 400 when the
text is empty or voice responses are disabled; otherwise attributes the
response to a session, marks every delivered utterance of the legacy
global queue as responded, and records the current time as the last-speak
timestamp. -/
def apiSpeak (st : ServerState) (text : String) (now : Int) : SpeakResponse × ServerState :=
  if jsTrim text = "" then
    (⟨400, some "Text is required", none, none, none, none⟩, st)
  else if st.voicePreferences.voiceResponsesEnabled = false then
    (⟨400, some "Voice responses are disabled",
      some "Cannot speak when voice responses are disabled", none, none, none⟩, st)
  else
    let attribution := speakAttribution st
    let deliveredUtterances := st.queue.deliveredList
    let queue' : UtteranceQueue :=
      ⟨st.queue.utterances.map (fun u =>
        if u.status = Status.delivered then { u with status := Status.responded } else u)⟩
    (⟨200, none, some "Text spoken successfully", some deliveredUtterances.length,
      attribution.1, attribution.2⟩,
     { st with queue := queue', lastSpeakTimestamp := some now })


/-! ## Shared helper lemmas -/

/-- The pending-utterance gate in manual mode: when voice input is active,
auto-delivery is disabled, and the legacy global queue holds a pending
utterance, every action is blocked with the dequeue instruction and the
state is returned unchanged. -/
theorem handleHookRequest_manual_gate (cfg : HookConfig) (action : HookAction)
    (st : ServerState) (now : Int) (envs : List (ServerState → ServerState))
    (hin : st.voicePreferences.voiceInputActive = true)
    (hauto : cfg.autoDeliverVoiceInput = false)
    (hp : st.queue.pendingList ≠ []) :
    handleHookRequest cfg action st now envs =
      (⟨Decision.block, some (manualPendingReason st.queue.pendingList.length)⟩, st) := by
  unfold handleHookRequest
  simp [hin, hauto, List.isEmpty_eq_false.mpr hp]

/-- When the pending-utterance gate does not fire (voice input inactive,
or no pending utterance in the legacy global queue, or the tool-action
skip of auto-delivery), `handleHookRequest` reduces to the later stages. -/
theorem handleHookRequest_eq_afterGate (cfg : HookConfig) (action : HookAction)
    (st : ServerState) (now : Int) (envs : List (ServerState → ServerState))
    (h : st.voicePreferences.voiceInputActive = false ∨ st.queue.pendingList = [] ∨
      (cfg.autoDeliverVoiceInput = true ∧ action = HookAction.tool ∧
        cfg.autoDeliverVoiceInputBeforeTools = false)) :
    handleHookRequest cfg action st now envs = hookAfterPendingGate cfg action st now envs := by
  unfold handleHookRequest
  rcases h with h | h | ⟨h1, h2, h3⟩
  · simp [h]
  · simp [h]
  · by_cases hpe : st.queue.pendingList.isEmpty
    · simp [hpe]
    · simp [h1, h2, h3, hpe]

/-- The delivered-but-unresponded gate: with voice responses enabled and a
delivered utterance in the legacy global queue, the later stages approve
only `speak` and block everything else, without touching the state. -/
theorem hookAfterPendingGate_delivered_gate (cfg : HookConfig) (action : HookAction)
    (st : ServerState) (now : Int) (envs : List (ServerState → ServerState))
    (hvr : st.voicePreferences.voiceResponsesEnabled = true)
    (hd : st.queue.deliveredList ≠ []) :
    hookAfterPendingGate cfg action st now envs =
      if action = HookAction.speak then (⟨Decision.approve, none⟩, st)
      else (⟨Decision.block, some (deliveredGateReason st.queue.deliveredList.length)⟩, st) := by
  unfold hookAfterPendingGate
  simp [hvr, List.isEmpty_eq_false.mpr hd]

/-! ## C1 -/

/-- C1 (amended): for every hook action, if voice input is active,
auto-delivery is disabled, and at least one pending utterance exists in
the legacy global queue, the hook decision is `block` with the reason
telling the assistant to invoke the `dequeue_utterances` capability, and
the state — in particular every utterance's status — is unchanged. -/
theorem hook_manual_pending_gate_blocks (cfg : HookConfig) (action : HookAction)
    (st : ServerState) (now : Int) (envs : List (ServerState → ServerState))
    (hin : st.voicePreferences.voiceInputActive = true)
    (hauto : cfg.autoDeliverVoiceInput = false)
    (hp : st.queue.pendingList ≠ []) :
    handleHookRequest cfg action st now envs =
      (⟨Decision.block, some (manualPendingReason st.queue.pendingList.length)⟩, st) :=
  handleHookRequest_manual_gate cfg action st now envs hin hauto hp

/-- State for the C1 witness: one pending utterance in the legacy global
queue, voice input active, voice responses disabled. -/
def c1WitnessState : ServerState :=
  ⟨⟨[], none⟩, ⟨[⟨"u1", "hello", 5, Status.pending⟩]⟩, none, none, ⟨false, true⟩⟩

/-- Witness for C1 at a concrete input. -/
theorem hook_manual_pending_gate_blocks_witness :
    handleHookRequest ⟨false, false⟩ HookAction.tool c1WitnessState 0 [] =
      (⟨Decision.block, some (manualPendingReason 1)⟩, c1WitnessState) := by
  have h := hook_manual_pending_gate_blocks ⟨false, false⟩ HookAction.tool c1WitnessState 0 []
    rfl rfl (by decide)
  simpa using h

/-- State for the C1 counterexample: the only pending utterance lives in a
per-session queue, the legacy global queue is empty, voice input is
active and auto-delivery is disabled. -/
def c1CexState : ServerState :=
  ⟨⟨[⟨"s1", none, none, 0, true, ⟨[⟨"u1", "hello", 5, Status.pending⟩]⟩, ⟨none, none, none⟩⟩],
    some "s1"⟩, ⟨[]⟩, none, none, ⟨false, true⟩⟩

/-- C1 counterexample: with voice input active, auto-delivery disabled,
and a pending utterance in a per-session queue (but none in the legacy
global queue), a tool attempt is approved, not blocked: the
pending-utterance gate inspects only the legacy global queue. -/
theorem hook_pending_gate_ignores_session_queues :
    c1CexState.voicePreferences.voiceInputActive = true ∧
    (⟨false, false⟩ : HookConfig).autoDeliverVoiceInput = false ∧
    pendingAnywhere c1CexState ≠ [] ∧
    (handleHookRequest ⟨false, false⟩ HookAction.tool c1CexState 0 []).1.decision =
      Decision.approve := by
  decide

/-! ## C2 -/

/-- C2 (amended): for every hook action, if voice responses are enabled,
the pending-utterance gate does not fire, and at least one delivered
utterance exists in the legacy global queue, then `speak` is approved and
every other action is blocked with the reason demanding a spoken
response; the state is unchanged. -/
theorem hook_delivered_gate_decision (cfg : HookConfig) (action : HookAction)
    (st : ServerState) (now : Int) (envs : List (ServerState → ServerState))
    (hvr : st.voicePreferences.voiceResponsesEnabled = true)
    (hng : st.voicePreferences.voiceInputActive = false ∨ st.queue.pendingList = [])
    (hd : st.queue.deliveredList ≠ []) :
    handleHookRequest cfg action st now envs =
      if action = HookAction.speak then (⟨Decision.approve, none⟩, st)
      else (⟨Decision.block, some (deliveredGateReason st.queue.deliveredList.length)⟩, st) := by
  rw [handleHookRequest_eq_afterGate cfg action st now envs (by tauto)]
  exact hookAfterPendingGate_delivered_gate cfg action st now envs hvr hd

/-- State for the C2 witness: one delivered utterance in the legacy global
queue, voice responses enabled, voice input inactive. -/
def c2WitnessState : ServerState :=
  ⟨⟨[], none⟩, ⟨[⟨"d1", "dong", 2, Status.delivered⟩]⟩, none, none, ⟨true, false⟩⟩

/-- Witness for C2 at a concrete input: a tool attempt is blocked and a
speak attempt is approved. -/
theorem hook_delivered_gate_decision_witness :
    handleHookRequest ⟨true, false⟩ HookAction.tool c2WitnessState 0 [] =
      (⟨Decision.block, some (deliveredGateReason 1)⟩, c2WitnessState) ∧
    handleHookRequest ⟨true, false⟩ HookAction.speak c2WitnessState 0 [] =
      (⟨Decision.approve, none⟩, c2WitnessState) := by
  have h1 := hook_delivered_gate_decision ⟨true, false⟩ HookAction.tool c2WitnessState 0 []
    rfl (Or.inl rfl) (by decide)
  have h2 := hook_delivered_gate_decision ⟨true, false⟩ HookAction.speak c2WitnessState 0 []
    rfl (Or.inl rfl) (by decide)
  exact ⟨by simpa using h1, by simpa using h2⟩

/-- State for the C2 counterexample: the only delivered utterance lives in
a per-session queue, the legacy global queue is empty, voice responses are
enabled, and no pending utterance exists anywhere. -/
def c2CexState : ServerState :=
  ⟨⟨[⟨"s1", none, none, 0, true, ⟨[⟨"u1", "hello", 5, Status.delivered⟩]⟩, ⟨none, none, none⟩⟩],
    some "s1"⟩, ⟨[]⟩, none, none, ⟨true, false⟩⟩

/-- C2 counterexample: with voice responses enabled, no pending utterance
anywhere, and a delivered utterance in a per-session queue (but none in
the legacy global queue), a tool attempt is approved, not blocked: the
delivered-but-unresponded gate inspects only the legacy global queue. -/
theorem hook_delivered_gate_ignores_session_queues :
    c2CexState.voicePreferences.voiceResponsesEnabled = true ∧
    pendingAnywhere c2CexState = [] ∧
    deliveredAnywhere c2CexState ≠ [] ∧
    (handleHookRequest ⟨true, false⟩ HookAction.tool c2CexState 0 []).1.decision =
      Decision.approve := by
  decide


/-! ## C4 -/

/-- With voice input active, `dequeueUtterancesCore` succeeds and returns
the sorted collection; its result components written out. -/
theorem dequeueUtterancesCore_active (st : ServerState)
    (hin : st.voicePreferences.voiceInputActive = true) :
    dequeueUtterancesCore st =
      (⟨true, none,
        some ((List.insertionSort (fun a b => b.utterance.timestamp ≤ a.utterance.timestamp)
          (collectPendingItems st)).map (fun it => ⟨it.utterance.text, it.utterance.timestamp⟩))⟩,
       (List.insertionSort (fun a b => b.utterance.timestamp ≤ a.utterance.timestamp)
          (collectPendingItems st)).foldl markPendingItem st) := by
  unfold dequeueUtterancesCore
  simp [hin]

/-- The collection of `dequeueUtterancesCore` is nonempty whenever the
legacy global queue holds a pending utterance. -/
theorem collectPendingItems_ne_nil (st : ServerState)
    (hp : st.queue.pendingList ≠ []) : collectPendingItems st ≠ [] := by
  unfold collectPendingItems
  intro h
  simp only [List.append_eq_nil, List.map_eq_nil_iff] at h
  exact hp h.2

/-- C4 (amended): with voice input active, voice responses enabled, one
pending and one delivered utterance in the legacy global queue, a
tool-invocation attempt is blocked by the pending-utterance gate (gate 1)
when auto-delivery is disabled (manual block, no status change) or when
the auto-deliver-before-tools sub-toggle is enabled (auto-dequeue block);
but under auto-delivery with the sub-toggle disabled (the startup
defaults) gate 1 is skipped for tools and the block comes from the
delivered-but-unresponded gate (gate 2) instead. -/
theorem hook_gate_precedence_by_config (cfg : HookConfig) (st : ServerState) (now : Int)
    (envs : List (ServerState → ServerState))
    (hin : st.voicePreferences.voiceInputActive = true)
    (hvr : st.voicePreferences.voiceResponsesEnabled = true)
    (hp : st.queue.pendingList ≠ [])
    (hd : st.queue.deliveredList ≠ []) :
    (cfg.autoDeliverVoiceInput = false →
      handleHookRequest cfg HookAction.tool st now envs =
        (⟨Decision.block, some (manualPendingReason st.queue.pendingList.length)⟩, st)) ∧
    (cfg.autoDeliverVoiceInput = true → cfg.autoDeliverVoiceInputBeforeTools = true →
      handleHookRequest cfg HookAction.tool st now envs =
        (⟨Decision.block,
          some (formatVoiceUtterances
            (((dequeueUtterancesCore st).1.utterances.getD []).reverse.map (fun u => u.text))
            (dequeueUtterancesCore st).2.voicePreferences.voiceResponsesEnabled)⟩,
         (dequeueUtterancesCore st).2)) ∧
    (cfg.autoDeliverVoiceInput = true → cfg.autoDeliverVoiceInputBeforeTools = false →
      handleHookRequest cfg HookAction.tool st now envs =
        (⟨Decision.block, some (deliveredGateReason st.queue.deliveredList.length)⟩, st)) := by
  refine ⟨fun hauto => handleHookRequest_manual_gate cfg HookAction.tool st now envs hin hauto hp,
    fun hauto hbt => ?_, fun hauto hbt => ?_⟩
  · have hne : List.insertionSort (fun a b => b.utterance.timestamp ≤ a.utterance.timestamp)
        (collectPendingItems st) ≠ [] := by
      intro h
      have hlen := congrArg List.length h
      rw [List.length_insertionSort] at hlen
      exact collectPendingItems_ne_nil st hp (List.length_eq_zero.mp hlen)
    rw [dequeueUtterancesCore_active st hin]
    unfold handleHookRequest
    rw [dequeueUtterancesCore_active st hin]
    simp [hin, hauto, hbt, List.isEmpty_eq_false.mpr hp, List.isEmpty_eq_false.mpr, hne]
  · rw [handleHookRequest_eq_afterGate cfg HookAction.tool st now envs (Or.inr (Or.inr ⟨hauto, rfl, hbt⟩))]
    rw [hookAfterPendingGate_delivered_gate cfg HookAction.tool st now envs hvr hd]
    simp

/-- Configuration and state for the C4 witness and counterexample: the
startup defaults (auto-delivery on, before-tools off), one pending and one
delivered utterance in the legacy global queue, voice input active, voice
responses enabled. -/
def c4State : ServerState :=
  ⟨⟨[], none⟩,
   ⟨[⟨"p1", "ping", 1, Status.pending⟩, ⟨"d1", "dong", 0, Status.delivered⟩]⟩,
   none, none, ⟨true, true⟩⟩

/-- Witness for C4 at a concrete input: the manual-mode configuration
blocks through gate 1. -/
theorem hook_gate_precedence_by_config_witness :
    handleHookRequest ⟨false, false⟩ HookAction.tool c4State 0 [] =
      (⟨Decision.block, some (manualPendingReason 1)⟩, c4State) := by
  have h := (hook_gate_precedence_by_config ⟨false, false⟩ c4State 0 []
    rfl rfl (by decide) (by decide)).1 rfl
  simpa using h

/-- C4 counterexample: under the startup default configuration
(auto-delivery enabled, before-tools disabled), the tool attempt in the
combined pending + delivered situation is blocked with gate 2's
delivered-utterance reason — not gate 1's: the pending utterance is left
untouched (gate 1's auto-dequeue would have marked it delivered) and the
reason is neither of gate 1's two messages. -/
theorem hook_gate_precedence_default_config_cex :
    (handleHookRequest ⟨true, false⟩ HookAction.tool c4State 0 []).1 =
      ⟨Decision.block, some (deliveredGateReason 1)⟩ ∧
    (handleHookRequest ⟨true, false⟩ HookAction.tool c4State 0 []).1.reason ≠
      some (manualPendingReason 1) ∧
    (handleHookRequest ⟨true, false⟩ HookAction.tool c4State 0 []).1.reason ≠
      some (formatVoiceUtterances ["ping"] true) ∧
    (handleHookRequest ⟨true, false⟩ HookAction.tool c4State 0 []).2.queue.pendingList =
      [⟨"p1", "ping", 1, Status.pending⟩] := by
  decide

/-! ## C5 -/

/-- C5: with auto-delivery enabled, the before-tools sub-toggle disabled,
voice input active, exactly one pending utterance in existence, and the
delivered-but-unresponded gate not applicable, a tool attempt is approved
and the only state change is the last-tool-use timestamp — in particular
the pending utterance stays pending. -/
theorem hook_tool_skips_auto_delivery (cfg : HookConfig) (st : ServerState) (now : Int)
    (envs : List (ServerState → ServerState))
    (hauto : cfg.autoDeliverVoiceInput = true)
    (hbt : cfg.autoDeliverVoiceInputBeforeTools = false)
    (_hin : st.voicePreferences.voiceInputActive = true)
    (_hone : (pendingAnywhere st).length = 1)
    (hnd : st.voicePreferences.voiceResponsesEnabled = false ∨ st.queue.deliveredList = []) :
    handleHookRequest cfg HookAction.tool st now envs =
      (⟨Decision.approve, none⟩, { st with lastToolUseTimestamp := some now }) := by
  rw [handleHookRequest_eq_afterGate cfg HookAction.tool st now envs
    (Or.inr (Or.inr ⟨hauto, rfl, hbt⟩))]
  unfold hookAfterPendingGate
  rcases hnd with h | h
  · simp [h]
  · simp [h]

/-- State for the C5 witness: one pending utterance "hello" in the legacy
global queue, voice input active, voice responses disabled. -/
def c5State : ServerState :=
  ⟨⟨[], none⟩, ⟨[⟨"u1", "hello", 5, Status.pending⟩]⟩, none, none, ⟨false, true⟩⟩

/-- Witness for C5 at a concrete input. -/
theorem hook_tool_skips_auto_delivery_witness :
    handleHookRequest ⟨true, false⟩ HookAction.tool c5State 7 [] =
      (⟨Decision.approve, none⟩, { c5State with lastToolUseTimestamp := some 7 }) := by
  exact hook_tool_skips_auto_delivery ⟨true, false⟩ c5State 7 [] rfl rfl rfl (by decide)
    (Or.inl rfl)


/-! ## C7 -/

/-- C7: a speak request fails with a 400 and changes nothing whenever
voice responses are disabled or the text trims to empty; on success it
maps every delivered utterance of the legacy global queue to responded,
leaves the session manager (hence every per-session queue) untouched, and
records the current time as last-speak. -/
theorem apiSpeak_spec (st : ServerState) (text : String) (now : Int) :
    ((st.voicePreferences.voiceResponsesEnabled = false ∨ jsTrim text = "") →
      (apiSpeak st text now).1.status = 400 ∧ (apiSpeak st text now).2 = st) ∧
    (st.voicePreferences.voiceResponsesEnabled = true → jsTrim text ≠ "" →
      (apiSpeak st text now).1.status = 200 ∧
      (apiSpeak st text now).2.queue.utterances =
        st.queue.utterances.map (fun u =>
          if u.status = Status.delivered then { u with status := Status.responded } else u) ∧
      (apiSpeak st text now).2.sessionManager = st.sessionManager ∧
      (apiSpeak st text now).2.lastSpeakTimestamp = some now ∧
      (apiSpeak st text now).2.lastToolUseTimestamp = st.lastToolUseTimestamp ∧
      (apiSpeak st text now).2.voicePreferences = st.voicePreferences) := by
  constructor
  · intro h
    unfold apiSpeak
    by_cases ht : jsTrim text = ""
    · simp [ht]
    · have hvr : st.voicePreferences.voiceResponsesEnabled = false := by tauto
      simp [ht, hvr]
  · intro hvr ht
    unfold apiSpeak
    simp [ht, hvr]

/-- State for the C7 witness: a delivered utterance in a session queue and
one delivered plus one pending utterance in the legacy global queue, with
voice responses enabled. -/
def c7State : ServerState :=
  ⟨⟨[⟨"s1", none, none, 0, true, ⟨[⟨"sd", "sess-del", 9, Status.delivered⟩]⟩,
      ⟨none, none, none⟩⟩], some "s1"⟩,
   ⟨[⟨"d1", "dong", 0, Status.delivered⟩, ⟨"p1", "ping", 1, Status.pending⟩]⟩,
   some 3, none, ⟨true, false⟩⟩

/-- Witness for C7 at concrete inputs: whitespace text fails without
mutation, and a successful speak responds the global delivered utterance
while leaving the session queue untouched. -/
theorem apiSpeak_spec_witness :
    ((apiSpeak c7State " " 42).1.status = 400 ∧ (apiSpeak c7State " " 42).2 = c7State) ∧
    ((apiSpeak c7State "hi" 42).1.status = 200 ∧
      (apiSpeak c7State "hi" 42).2.queue.utterances =
        c7State.queue.utterances.map (fun u =>
          if u.status = Status.delivered then { u with status := Status.responded } else u) ∧
      (apiSpeak c7State "hi" 42).2.sessionManager = c7State.sessionManager ∧
      (apiSpeak c7State "hi" 42).2.lastSpeakTimestamp = some 42 ∧
      (apiSpeak c7State "hi" 42).2.lastToolUseTimestamp = c7State.lastToolUseTimestamp ∧
      (apiSpeak c7State "hi" 42).2.voicePreferences = c7State.voicePreferences) :=
  ⟨(apiSpeak_spec c7State " " 42).1 (Or.inr (by decide)),
   (apiSpeak_spec c7State "hi" 42).2 rfl (by decide)⟩

/-! ## C9 -/

/-- A `SessionData` carrying no session-identifying hint at all. -/
def anonymousSessionData : SessionData := ⟨none, none, none, none, none, none⟩

/-- The empty session registry the process starts with. -/
def emptySessionManager : SessionManagerState := ⟨[], none⟩

set_option maxRecDepth 16000 in
/-- C9 (evidence of the code bug): two back-to-back `registerSession`
calls with no session-identifying hints that observe the same
`Date.now()` millisecond (here 1700000000000) produce the identical
session id — the timestamp seed does not guarantee uniqueness — and the
two anonymous contexts collapse into a single registered session. -/
theorem registerSession_same_millisecond_collides :
    (registerSession emptySessionManager anonymousSessionData 1700000000000).1 =
      (registerSession
        (registerSession emptySessionManager anonymousSessionData 1700000000000).2
        anonymousSessionData 1700000000000).1 ∧
    (registerSession
        (registerSession emptySessionManager anonymousSessionData 1700000000000).2
        anonymousSessionData 1700000000000).2.sessions.length = 1 := by
  constructor
  · decide
  · decide


/-! ## C10 -/

/-- C10: a `registerSession` call resolving to an id already present in
the registry re-activates that session (`isActive` becomes true) and
leaves the process-wide active-session pointer unchanged. -/
theorem registerSession_refresh_reactivates (m : SessionManagerState) (d : SessionData)
    (now : Int) (h : ∃ s, s ∈ m.sessions ∧ s.id = generateSessionId d now) :
    (registerSession m d now).2.activeSessionId = m.activeSessionId ∧
    ∀ s, s ∈ (registerSession m d now).2.sessions → s.id = generateSessionId d now →
      s.isActive = true := by
  obtain ⟨s0, hs0, hid0⟩ := h
  have hf : (m.sessions.find? (fun s => s.id == generateSessionId d now)).isSome := by
    rw [List.find?_isSome]
    exact ⟨s0, hs0, by simp [hid0]⟩
  obtain ⟨v, hv⟩ := Option.isSome_iff_exists.mp hf
  unfold registerSession
  simp only [hv]
  constructor
  · trivial
  · intro s hs hid
    rcases List.mem_map.mp hs with ⟨t, ht, rfl⟩
    by_cases hts : t.id = generateSessionId d now
    · simp [hts]
    · simp only [if_neg hts] at hid ⊢
      exact absurd hid hts

/-- A deactivated session for the C10 witness. -/
def c10Session : SessionInfo := ⟨"s1", none, none, 0, false, ⟨[]⟩, ⟨none, none, none⟩⟩

/-- Registry for the C10 witness: the session is registered but inactive,
and no session is active. -/
def c10Manager : SessionManagerState := ⟨[c10Session], none⟩

/-- Session data resolving to the existing id for the C10 witness. -/
def c10Data : SessionData := ⟨some "s1", none, none, none, none, none⟩

/-- Witness for C10 at a concrete input: re-registering the deactivated
session re-activates it and leaves the active pointer unchanged. -/
theorem registerSession_refresh_reactivates_witness :
    (registerSession c10Manager c10Data 7).2.activeSessionId = none ∧
    ∀ s, s ∈ (registerSession c10Manager c10Data 7).2.sessions → s.id = "s1" →
      s.isActive = true := by
  have h := registerSession_refresh_reactivates c10Manager c10Data 7
    ⟨c10Session, by decide, rfl⟩
  exact ⟨h.1, h.2⟩


/-! ## C6 -/

/-- The states the polling loop observes: the entry state, then the state
after each 100ms sleep's environment update. -/
def observedStates : ServerState → List (ServerState → ServerState) → List ServerState
  | st, [] => [st]
  | st, e :: es => st :: observedStates (e st) es

/-- The found-branch result components of `waitFound`. -/
theorem waitFound_shape (st : ServerState) (p : List Utterance) :
    (waitFound st p).1.success = true ∧
    (waitFound st p).1.utterances =
      some ((List.insertionSort (fun a b => a.timestamp ≤ b.timestamp) p).map
        (fun u => ⟨u.id, u.text, u.timestamp, Status.delivered⟩)) :=
  ⟨rfl, rfl⟩

/-- Every run of the polling loop succeeds, and a run that returns an
empty utterance list is exactly the deactivation result or the timeout
result. -/
theorem waitLoop_success_shape (envs : List (ServerState → ServerState)) (st : ServerState) :
    (waitLoop st envs).1.success = true ∧
    ((waitLoop st envs).1.utterances = some [] →
      (waitLoop st envs).1 = waitDeactivatedResult ∨
      (waitLoop st envs).1 = waitTimeoutResult) := by
  induction envs generalizing st with
  | nil =>
    by_cases ha : st.voicePreferences.voiceInputActive = false
    · simp [waitLoop, ha, waitDeactivatedResult]
    · by_cases hp : (collectPendingWait st).isEmpty
      · simp [waitLoop, ha, hp, waitTimeoutResult]
      · have hne : collectPendingWait st ≠ [] := by
          simpa using List.isEmpty_eq_false.mp (Bool.not_eq_true _ ▸ Bool.of_not_eq_true hp)
        constructor
        · simpa [waitLoop, ha, hp] using (waitFound_shape st (collectPendingWait st)).1
        · intro h
          rw [show (waitLoop st []).1 = (waitFound st (collectPendingWait st)).1 by
            simp [waitLoop, ha, hp]] at h
          rw [(waitFound_shape st (collectPendingWait st)).2] at h
          have hlen := congrArg (fun o => (Option.getD o []).length) h
          simp [List.length_insertionSort] at hlen
          exact absurd hlen hne
  | cons e es ih =>
    by_cases ha : st.voicePreferences.voiceInputActive = false
    · simp [waitLoop, ha, waitDeactivatedResult]
    · by_cases hp : (collectPendingWait st).isEmpty
      · simpa [waitLoop, ha, hp] using ih (e st)
      · have hne : collectPendingWait st ≠ [] := by
          simpa using List.isEmpty_eq_false.mp (Bool.not_eq_true _ ▸ Bool.of_not_eq_true hp)
        constructor
        · simpa [waitLoop, ha, hp] using (waitFound_shape st (collectPendingWait st)).1
        · intro h
          rw [show (waitLoop st (e :: es)).1 = (waitFound st (collectPendingWait st)).1 by
            simp [waitLoop, ha, hp]] at h
          rw [(waitFound_shape st (collectPendingWait st)).2] at h
          have hlen := congrArg (fun o => (Option.getD o []).length) h
          simp [List.length_insertionSort] at hlen
          exact absurd hlen hne

/-- When every observed state stays voice-active with no pending
utterance anywhere, the polling loop times out. -/
theorem waitLoop_timeout (envs : List (ServerState → ServerState)) (st : ServerState)
    (h : ∀ s ∈ observedStates st envs,
      s.voicePreferences.voiceInputActive = true ∧ collectPendingWait s = []) :
    (waitLoop st envs).1 = waitTimeoutResult := by
  induction envs generalizing st with
  | nil =>
    have hst := h st (by simp [observedStates])
    simp [waitLoop, hst.1, hst.2]
  | cons e es ih =>
    have hst := h st (by simp [observedStates])
    have h' : ∀ s ∈ observedStates (e st) es,
        s.voicePreferences.voiceInputActive = true ∧ collectPendingWait s = [] :=
      fun s hs => h s (by simp [observedStates, hs])
    simpa [waitLoop, hst.1, hst.2] using ih (e st) h'

/-- When the first observed state that breaks the active-and-nothing-
pending pattern is a deactivation, the polling loop returns the
deactivation result. -/
theorem waitLoop_deactivated (envs : List (ServerState → ServerState)) (st : ServerState)
    (k : Nat) (sk : ServerState)
    (hk : (observedStates st envs)[k]? = some sk)
    (hks : sk.voicePreferences.voiceInputActive = false)
    (hpre : ∀ j, j < k → ∀ sj, (observedStates st envs)[j]? = some sj →
      sj.voicePreferences.voiceInputActive = true ∧ collectPendingWait sj = []) :
    (waitLoop st envs).1 = waitDeactivatedResult := by
  induction envs generalizing st k with
  | nil =>
    cases k with
    | zero =>
      have hsk : sk = st := by
        simp [observedStates] at hk
        exact hk.symm
      subst hsk
      simp [waitLoop, hks]
    | succ k => simp [observedStates] at hk
  | cons e es ih =>
    cases k with
    | zero =>
      have hsk : sk = st := by
        simp [observedStates] at hk
        exact hk.symm
      subst hsk
      simp [waitLoop, hks]
    | succ k =>
      have hst := hpre 0 (Nat.succ_pos k) st (by simp [observedStates])
      have hk' : (observedStates (e st) es)[k]? = some sk := by
        simpa [observedStates] using hk
      have hpre' : ∀ j, j < k → ∀ sj, (observedStates (e st) es)[j]? = some sj →
          sj.voicePreferences.voiceInputActive = true ∧ collectPendingWait sj = [] :=
        fun j hj sj hsj => hpre (j + 1) (by omega) sj (by simpa [observedStates] using hsj)
      simpa [waitLoop, hst.1, hst.2] using ih (e st) k hk' hpre'

/-- C6: the no-utterance outcomes of `waitForUtteranceCore` are exactly:
(1) voice input inactive at entry — a failure result with an error and no
utterances array, surfaced as HTTP 400; (2) voice input deactivated
during the wait — success with an empty list and the deactivation
message; (3) timeout with nothing found — success with an empty list and
the timed-out message.  Conjuncts: the entry failure, the trichotomy of
empty-list results, the timeout condition, and the deactivation
condition. -/
theorem waitForUtteranceCore_no_utterance_outcomes (st : ServerState)
    (envs : List (ServerState → ServerState)) :
    (st.voicePreferences.voiceInputActive = false →
      waitForUtteranceCore st envs = (waitNotActiveResult, st) ∧
      waitHttpStatus waitNotActiveResult = 400) ∧
    (st.voicePreferences.voiceInputActive = true →
      (waitForUtteranceCore st envs).1.success = true ∧
      ((waitForUtteranceCore st envs).1.utterances = some [] →
        (waitForUtteranceCore st envs).1 = waitDeactivatedResult ∨
        (waitForUtteranceCore st envs).1 = waitTimeoutResult)) ∧
    ((∀ s ∈ observedStates st envs,
        s.voicePreferences.voiceInputActive = true ∧ collectPendingWait s = []) →
      (waitForUtteranceCore st envs).1 = waitTimeoutResult) ∧
    (st.voicePreferences.voiceInputActive = true →
      ∀ (k : Nat) (sk : ServerState), (observedStates st envs)[k]? = some sk →
        sk.voicePreferences.voiceInputActive = false →
        (∀ j, j < k → ∀ sj, (observedStates st envs)[j]? = some sj →
          sj.voicePreferences.voiceInputActive = true ∧ collectPendingWait sj = []) →
        (waitForUtteranceCore st envs).1 = waitDeactivatedResult) := by
  refine ⟨fun ha => ?_, fun ha => ?_, fun h => ?_, fun ha k sk hk hks hpre => ?_⟩
  · constructor
    · simp [waitForUtteranceCore, ha]
    · decide
  · have : waitForUtteranceCore st envs = waitLoop st envs := by
      simp [waitForUtteranceCore, ha]
    rw [this]
    exact waitLoop_success_shape envs st
  · have ha := (h st (by cases envs <;> simp [observedStates])).1
    have : waitForUtteranceCore st envs = waitLoop st envs := by
      simp [waitForUtteranceCore, ha]
    rw [this]
    exact waitLoop_timeout envs st h
  · have : waitForUtteranceCore st envs = waitLoop st envs := by
      simp [waitForUtteranceCore, ha]
    rw [this]
    exact waitLoop_deactivated envs st k sk hk hks hpre

/-- State for the C6 witness with voice input inactive (and a pending
utterance that is therefore never looked at). -/
def c6InactiveState : ServerState :=
  ⟨⟨[], none⟩, ⟨[⟨"u1", "hello", 5, Status.pending⟩]⟩, none, none, ⟨false, false⟩⟩

/-- State for the C6 witness with voice input active and no pending
utterance anywhere. -/
def c6ActiveState : ServerState := ⟨⟨[], none⟩, ⟨[]⟩, none, none, ⟨false, true⟩⟩

/-- An environment update that switches voice input off mid-wait. -/
def c6Deactivate : ServerState → ServerState :=
  fun s => { s with voicePreferences := ⟨s.voicePreferences.voiceResponsesEnabled, false⟩ }

/-- Witness for C6 at concrete inputs: the entry failure with HTTP 400,
the timeout on an exhausted poll budget, and the deactivation return. -/
theorem waitForUtteranceCore_no_utterance_outcomes_witness :
    (waitForUtteranceCore c6InactiveState [] = (waitNotActiveResult, c6InactiveState) ∧
      waitHttpStatus waitNotActiveResult = 400) ∧
    (waitForUtteranceCore c6ActiveState []).1 = waitTimeoutResult ∧
    (waitForUtteranceCore c6ActiveState [c6Deactivate]).1 = waitDeactivatedResult := by
  refine ⟨(waitForUtteranceCore_no_utterance_outcomes c6InactiveState []).1 rfl, ?_, ?_⟩
  · refine (waitForUtteranceCore_no_utterance_outcomes c6ActiveState []).2.2.1 ?_
    intro s hs
    simp [observedStates] at hs
    subst hs
    exact ⟨rfl, by decide⟩
  · refine (waitForUtteranceCore_no_utterance_outcomes c6ActiveState [c6Deactivate]).2.2.2
      rfl 1 (c6Deactivate c6ActiveState) rfl rfl ?_
    intro j hj sj hsj
    have hj0 : j = 0 := by omega
    subst hj0
    simp [observedStates] at hsj
    subst hsj
    exact ⟨rfl, by decide⟩


/-! ## C8 -/

/-- The three registry operations of the claim. -/
inductive SessionOp where
  | register (d : SessionData) (now : Int)
  | markInactive (sessionId : String) (now : Int)
  | remove (sessionId : String)
  deriving Repr

/-- Apply one registry operation to the manager state. -/
def applySessionOp (m : SessionManagerState) : SessionOp → SessionManagerState
  | SessionOp.register d now => (registerSession m d now).2
  | SessionOp.markInactive sid now => markSessionInactive m sid now
  | SessionOp.remove sid => removeSession m sid

/-- The active-session invariant: either no session is active, or the
active pointer names a registered session whose `isActive` flag is true. -/
def ActiveSessionOk (m : SessionManagerState) : Prop :=
  m.activeSessionId = none ∨
    ∃ s, s ∈ m.sessions ∧ some s.id = m.activeSessionId ∧ s.isActive = true

/-- `registerSession` preserves the active-session invariant. -/
theorem ActiveSessionOk_registerSession (m : SessionManagerState) (d : SessionData)
    (now : Int) (h : ActiveSessionOk m) : ActiveSessionOk (registerSession m d now).2 := by
  unfold registerSession
  cases hf : m.sessions.find? (fun s => s.id == generateSessionId d now) with
  | none =>
    simp only [hf]
    by_cases ha : m.activeSessionId = none
    · right
      refine ⟨_, List.mem_append_right _ (List.mem_singleton.mpr rfl), ?_, rfl⟩
      simp [ha]
    · rcases h with h0 | ⟨s, hs, hid, hact⟩
      · exact absurd h0 ha
      · right
        exact ⟨s, List.mem_append_left _ hs, by simp [ha, hid], hact⟩
  | some v =>
    simp only [hf]
    rcases h with h0 | ⟨s, hs, hid, hact⟩
    · left
      exact h0
    · right
      by_cases hsid : s.id = generateSessionId d now
      · refine ⟨_, List.mem_map_of_mem _ hs, ?_, ?_⟩
        · simpa [hsid] using hid
        · simp [hsid]
      · exact ⟨s, List.mem_map.mpr ⟨s, hs, by simp [hsid]⟩, hid, hact⟩

/-- `markSessionInactive` preserves the active-session invariant. -/
theorem ActiveSessionOk_markSessionInactive (m : SessionManagerState) (sid : String)
    (now : Int) (h : ActiveSessionOk m) : ActiveSessionOk (markSessionInactive m sid now) := by
  unfold markSessionInactive
  cases hf : m.sessions.find? (fun s => s.id == sid) with
  | none => exact h
  | some v =>
    simp only [hf]
    by_cases ha : m.activeSessionId = some sid
    · simp only [if_pos ha]
      cases hh : (List.insertionSort (fun a b => b.lastActivity ≤ a.lastActivity)
          ((m.sessions.map (fun s =>
            if s.id = sid then { s with isActive := false, lastActivity := now } else s)).filter
            (fun s => s.isActive && !(s.id == sid)))).head? with
      | none =>
        left
        simp [hh]
      | some s =>
        right
        have hmem := List.mem_of_mem_head? (Option.mem_def.mpr hh)
        rw [List.mem_insertionSort] at hmem
        have hfs := List.mem_filter.mp hmem
        refine ⟨s, hfs.1, by simp [hh], ?_⟩
        have := hfs.2
        simp only [Bool.and_eq_true] at this
        exact this.1
    · simp only [if_neg ha]
      rcases h with h0 | ⟨s, hs, hid, hact⟩
      · left
        exact h0
      · right
        have hsid : ¬(s.id = sid) := by
          intro hh
          exact ha (by rw [← hid, hh])
        exact ⟨s, List.mem_map.mpr ⟨s, hs, by simp [hsid]⟩, hid, hact⟩

/-- `removeSession` preserves the active-session invariant. -/
theorem ActiveSessionOk_removeSession (m : SessionManagerState) (sid : String)
    (h : ActiveSessionOk m) : ActiveSessionOk (removeSession m sid) := by
  unfold removeSession
  cases hf : m.sessions.find? (fun s => s.id == sid) with
  | none => exact h
  | some v =>
    simp only [hf]
    by_cases ha : m.activeSessionId = some sid
    · simp only [if_pos ha]
      cases hh : (List.insertionSort (fun a b => b.lastActivity ≤ a.lastActivity)
          ((m.sessions.filter (fun s => !(s.id == sid))).filter
            (fun s => s.isActive))).head? with
      | none =>
        left
        simp [hh]
      | some s =>
        right
        have hmem := List.mem_of_mem_head? (Option.mem_def.mpr hh)
        rw [List.mem_insertionSort] at hmem
        have hfs := List.mem_filter.mp hmem
        exact ⟨s, hfs.1, by simp [hh], hfs.2⟩
    · simp only [if_neg ha]
      rcases h with h0 | ⟨s, hs, hid, hact⟩
      · left
        exact h0
      · right
        have hsid : ¬(s.id = sid) := by
          intro hh
          exact ha (by rw [← hid, hh])
        exact ⟨s, List.mem_filter.mpr ⟨hs, by simp [hsid]⟩, hid, hact⟩

/-- C8: after any sequence of `registerSession`, `markSessionInactive`
and `removeSession` operations starting from the empty registry, either
the active-session pointer is null or it names a registered session whose
`isActive` flag is true. -/
theorem active_session_invariant (ops : List SessionOp) :
    ActiveSessionOk (ops.foldl applySessionOp emptySessionManager) := by
  suffices h : ∀ (l : List SessionOp) (m : SessionManagerState), ActiveSessionOk m →
      ActiveSessionOk (l.foldl applySessionOp m) from
    h ops emptySessionManager (Or.inl rfl)
  intro l
  induction l with
  | nil => exact fun m hm => hm
  | cons op l ih =>
    intro m hm
    refine ih _ ?_
    cases op with
    | register d now => exact ActiveSessionOk_registerSession m d now hm
    | markInactive sid now => exact ActiveSessionOk_markSessionInactive m sid now hm
    | remove sid => exact ActiveSessionOk_removeSession m sid hm


/-! ## C3 -/

/-- Force an utterance's status to delivered (the effect of
`markDelivered` on the matched utterance). -/
def setDelivered (u : Utterance) : Utterance := { u with status := Status.delivered }

/-- Deliver an utterance when it is pending, leave it alone otherwise:
the per-utterance effect of a full dequeue on a queue. -/
def deliverPending (u : Utterance) : Utterance :=
  if u.status = Status.pending then { u with status := Status.delivered } else u

/-- Run `markDelivered` for each id of a list, left to right. -/
def markIds (us : List Utterance) (ids : List String) : List Utterance :=
  ids.foldl markDeliveredList us

/-- The ids a list of collected items marks in the legacy global queue. -/
def globalTargets (items : List PendingItem) : List String :=
  items.filterMap (fun it =>
    match it.sessionId with
    | none => some it.utterance.id
    | some _ => none)

/-- The ids a list of collected items marks in the queue of the session
with the given id. -/
def sessionTargets (items : List PendingItem) (sid : String) : List String :=
  items.filterMap (fun it =>
    match it.sessionId with
    | some t => if t = sid then some it.utterance.id else none
    | none => none)

/-- Ids-uniqueness hypotheses under which dequeue marking is exact:
session ids are pairwise distinct, and utterance ids are pairwise
distinct within the legacy global queue and within every session
queue (the code generates them with `randomUUID`). -/
def WellFormedIds (st : ServerState) : Prop :=
  (st.sessionManager.sessions.map (fun s => s.id)).Nodup ∧
  (st.queue.utterances.map (fun u => u.id)).Nodup ∧
  ∀ s ∈ st.sessionManager.sessions, (s.utteranceQueue.utterances.map (fun u => u.id)).Nodup

/-- On a queue with distinct ids, marking one id delivered rewrites every
(that is, the unique) utterance carrying it. -/
theorem markDeliveredList_eq_map {us : List Utterance} {i : String}
    (hn : (us.map (fun u => u.id)).Nodup) :
    markDeliveredList us i = us.map (fun u => if u.id = i then setDelivered u else u) := by
  induction us with
  | nil => rfl
  | cons u us ih =>
    have hcons : (∀ x ∈ us, ¬x.id = u.id) ∧ (us.map (fun u => u.id)).Nodup := by
      simpa [List.nodup_cons] using hn
    simp only [markDeliveredList, List.map_cons]
    by_cases h : u.id = i
    · simp only [if_pos h]
      have hrest : ∀ v ∈ us, ¬(v.id = i) := fun v hv hvi => hcons.1 v hv (h ▸ hvi)
      have hmap : us.map (fun v => if v.id = i then setDelivered v else v) = us.map id :=
        List.map_congr_left (fun v hv => by simp [hrest v hv])
      rw [hmap, List.map_id]
      rfl
    · simp only [if_neg h]
      rw [ih hcons.2]

/-- On a queue with distinct ids, running `markDelivered` for a list of
ids delivers exactly the utterances whose id occurs in the list. -/
theorem markIds_eq_map {us : List Utterance} {ids : List String}
    (hn : (us.map (fun u => u.id)).Nodup) :
    markIds us ids = us.map (fun u => if u.id ∈ ids then setDelivered u else u) := by
  induction ids generalizing us with
  | nil => simp [markIds]
  | cons i ids ih =>
    have hstep : markIds us (i :: ids) = markIds (markDeliveredList us i) ids := rfl
    rw [hstep, markDeliveredList_eq_map hn]
    have hn' : ((us.map (fun u => if u.id = i then setDelivered u else u)).map
        (fun u => u.id)).Nodup := by
      rw [List.map_map]
      have : ((fun u => u.id) ∘ fun u => if u.id = i then setDelivered u else u) =
          fun u : Utterance => u.id := by
        funext u
        by_cases h : u.id = i <;> simp [h, setDelivered]
      rw [this]
      exact hn
    rw [ih hn', List.map_map]
    refine List.map_congr_left ?_
    intro u _
    by_cases h : u.id = i
    · have hid : (setDelivered u).id = u.id := rfl
      simp [Function.comp, h, hid, setDelivered]
    · simp [Function.comp, h, List.mem_cons]


/-- Running the marking loop of `dequeueUtterancesCore` over any item
list rewrites the legacy global queue by the globally-targeted ids and
each session queue by its own targeted ids, and changes nothing else. -/
theorem foldl_markPendingItem_spec (items : List PendingItem) (st : ServerState) :
    items.foldl markPendingItem st =
      { st with
        queue := ⟨markIds st.queue.utterances (globalTargets items)⟩
        sessionManager :=
          { st.sessionManager with
            sessions := st.sessionManager.sessions.map (fun s =>
              { s with
                utteranceQueue :=
                  ⟨markIds s.utteranceQueue.utterances (sessionTargets items s.id)⟩ }) } } := by
  induction items generalizing st with
  | nil =>
    have h2 : st.sessionManager.sessions.map (fun s =>
        { s with
          utteranceQueue :=
            (⟨markIds s.utteranceQueue.utterances (sessionTargets [] s.id)⟩ : UtteranceQueue) }) =
        st.sessionManager.sessions :=
      (List.map_congr_left (fun s _ => (rfl : _ = id s))).trans (List.map_id _)
    rw [List.foldl_nil, h2]
    rfl
  | cons it rest ih =>
    rw [List.foldl_cons, ih]
    cases hit : it.sessionId with
    | none =>
      have hg : globalTargets (it :: rest) = it.utterance.id :: globalTargets rest := by
        simp [globalTargets, List.filterMap_cons, hit]
      have hs : ∀ sid, sessionTargets (it :: rest) sid = sessionTargets rest sid := by
        intro sid
        simp [sessionTargets, List.filterMap_cons, hit]
      simp only [markPendingItem, hit, UtteranceQueue.markDelivered, hg,
        ServerState.mk.injEq, SessionManagerState.mk.injEq]
      refine ⟨⟨List.map_congr_left (fun s _ => by rw [hs s.id]), ?_⟩, ?_, ?_, ?_⟩ <;> trivial
    | some sid =>
      have hg : globalTargets (it :: rest) = globalTargets rest := by
        simp [globalTargets, List.filterMap_cons, hit]
      simp only [markPendingItem, hit, UtteranceQueue.markDelivered, hg,
        ServerState.mk.injEq, SessionManagerState.mk.injEq, List.map_map]
      refine ⟨⟨List.map_congr_left ?_, trivial⟩, trivial, trivial, trivial, trivial⟩
      intro s _
      by_cases hsd : s.id = sid
      · have htar : sessionTargets (it :: rest) s.id =
            it.utterance.id :: sessionTargets rest s.id := by
          simp [sessionTargets, List.filterMap_cons, hit, hsd.symm]
        rw [htar]
        simp only [Function.comp, hsd, UtteranceQueue.markDelivered, if_pos]
        rfl
      · have htar : sessionTargets (it :: rest) s.id = sessionTargets rest s.id := by
          simp only [sessionTargets, List.filterMap_cons, hit]
          rw [if_neg (fun h => hsd h.symm)]
        rw [htar]
        simp [Function.comp, hsd]


/-- A list of sessions with pairwise-distinct ids is a permutation of the
found session followed by the sessions with other ids. -/
theorem perm_cons_filter_of_nodup_id {l : List SessionInfo} {a : SessionInfo}
    (hn : (l.map (fun s => s.id)).Nodup) (ha : a ∈ l) :
    List.Perm l (a :: l.filter (fun s => !(s.id == a.id))) := by
  induction l with
  | nil => cases ha
  | cons b l ih =>
    have hcons : (∀ x ∈ l, ¬x.id = b.id) ∧ (l.map (fun s => s.id)).Nodup := by
      simpa [List.nodup_cons] using hn
    rcases List.mem_cons.mp ha with rfl | ha'
    · have hfl : l.filter (fun s => !(s.id == a.id)) = l :=
        List.filter_eq_self.mpr (fun s hs => by simp [hcons.1 s hs])
      simp [hfl]
    · have hbid : ¬(b.id = a.id) := by
        intro hh
        exact hcons.1 a ha' hh.symm
      have hfb : (List.filter (fun s => !(s.id == a.id)) (b :: l)) =
          b :: l.filter (fun s => !(s.id == a.id)) := by
        simp [List.filter_cons, hbid]
      rw [hfb]
      exact ((ih hcons.2 ha').cons b).trans (List.Perm.swap a b _)

/-- The canonical tagged collection of all pending utterances: every
session's pending utterances tagged with the session id, then the legacy
global queue's pending utterances tagged as global. -/
def taggedPending (st : ServerState) : List PendingItem :=
  st.sessionManager.sessions.flatMap (fun s =>
    s.utteranceQueue.pendingList.map (fun u => ⟨u, some s.id⟩)) ++
  st.queue.pendingList.map (fun u => ⟨u, none⟩)

/-- With pairwise-distinct session ids, the active-session-first traversal
of `dequeueUtterancesCore` collects a permutation of the canonical tagged
collection. -/
theorem collectPendingItems_perm (st : ServerState)
    (hn : (st.sessionManager.sessions.map (fun s => s.id)).Nodup) :
    List.Perm (collectPendingItems st) (taggedPending st) := by
  unfold collectPendingItems taggedPending
  cases hact : getActiveSession st.sessionManager with
  | none =>
    simp only [hact, List.nil_append]
    refine List.Perm.append ?_ (List.Perm.refl _)
    have hfl : (getAllSessions st.sessionManager).filter (fun _ => true) =
        getAllSessions st.sessionManager := List.filter_eq_self.mpr (fun _ _ => rfl)
    rw [hfl]
    exact List.Perm.flatMap_right _ (List.perm_insertionSort _ _)
  | some a =>
    have ha_mem : a ∈ st.sessionManager.sessions := by
      unfold getActiveSession at hact
      cases haid : st.sessionManager.activeSessionId with
      | none => rw [haid] at hact; cases hact
      | some aid =>
        rw [haid] at hact
        exact List.mem_of_find?_eq_some hact
    have hsplit := perm_cons_filter_of_nodup_id hn ha_mem
    simp only [hact]
    have hothers : List.Perm
        ((getAllSessions st.sessionManager).filter (fun s => !(s.id == a.id)))
        (st.sessionManager.sessions.filter (fun s => !(s.id == a.id))) :=
      (List.perm_insertionSort _ _).filter _
    refine List.Perm.append ?_ (List.Perm.refl _)
    have htag : List.Perm
        (st.sessionManager.sessions.flatMap (fun s =>
          s.utteranceQueue.pendingList.map (fun u => (⟨u, some s.id⟩ : PendingItem))))
        ((a :: st.sessionManager.sessions.filter (fun s => !(s.id == a.id))).flatMap (fun s =>
          s.utteranceQueue.pendingList.map (fun u => (⟨u, some s.id⟩ : PendingItem)))) :=
      List.Perm.flatMap_right _ hsplit
    refine (List.Perm.append (List.Perm.refl _) (hothers.flatMap_right _)).trans ?_
    rw [List.flatMap_cons] at htag
    exact htag.symm

/-- The ids the canonical collection targets at the legacy global queue
are exactly the ids of the queue's pending utterances. -/
theorem globalTargets_taggedPending (st : ServerState) :
    globalTargets (taggedPending st) = st.queue.pendingList.map (fun u => u.id) := by
  unfold globalTargets taggedPending
  rw [List.filterMap_append]
  have h1 : (st.sessionManager.sessions.flatMap (fun s =>
      s.utteranceQueue.pendingList.map (fun u => (⟨u, some s.id⟩ : PendingItem)))).filterMap
        (fun it => match it.sessionId with
          | none => some it.utterance.id
          | some _ => none) = [] := by
    rw [List.filterMap_eq_nil_iff]
    intro it hit
    obtain ⟨s, _, hmem⟩ := List.mem_flatMap.mp hit
    obtain ⟨u, _, rfl⟩ := List.mem_map.mp hmem
    rfl
  rw [h1, List.nil_append, List.filterMap_map]
  have hfn : ((fun it => match it.sessionId with
      | none => some it.utterance.id
      | some _ => none) ∘ (fun u => (⟨u, none⟩ : PendingItem))) =
      fun u : Utterance => some u.id := rfl
  rw [hfn, show (fun u : Utterance => some u.id) = some ∘ (fun u : Utterance => u.id) from rfl,
    List.filterMap_eq_map]

/-- For a registered session, with pairwise-distinct session ids, the ids
the canonical collection targets at that session's queue are exactly the
ids of its pending utterances. -/
theorem mem_sessionTargets_taggedPending (st : ServerState)
    (hn : (st.sessionManager.sessions.map (fun s => s.id)).Nodup)
    (s : SessionInfo) (hs : s ∈ st.sessionManager.sessions) (x : String) :
    x ∈ sessionTargets (taggedPending st) s.id ↔
      x ∈ s.utteranceQueue.pendingList.map (fun u => u.id) := by
  unfold sessionTargets taggedPending
  constructor
  · intro hx
    obtain ⟨it, hit, hfx⟩ := List.mem_filterMap.mp hx
    rcases List.mem_append.mp hit with hitl | hitr
    · obtain ⟨t, ht, hmem⟩ := List.mem_flatMap.mp hitl
      obtain ⟨u, hu, rfl⟩ := List.mem_map.mp hmem
      simp only at hfx
      by_cases hts : t.id = s.id
      · have : t = s := List.inj_on_of_nodup_map hn ht hs hts
        subst this
        rw [if_pos rfl] at hfx
        cases hfx
        exact List.mem_map_of_mem _ hu
      · rw [if_neg hts] at hfx
        cases hfx
    · obtain ⟨u, _, rfl⟩ := List.mem_map.mp hitr
      cases hfx
  · intro hx
    obtain ⟨u, hu, rfl⟩ := List.mem_map.mp hx
    refine List.mem_filterMap.mpr ⟨⟨u, some s.id⟩, ?_, by simp⟩
    exact List.mem_append_left _ (List.mem_flatMap.mpr ⟨s, hs, List.mem_map_of_mem _ hu⟩)

/-- Membership in the pending-utterance id list of a queue with distinct
ids characterizes the pending status. -/
theorem mem_pending_ids_iff {us : List Utterance}
    (hn : (us.map (fun u => u.id)).Nodup) {u : Utterance} (hu : u ∈ us) :
    u.id ∈ (us.filter (fun v => v.status == Status.pending)).map (fun v => v.id) ↔
      u.status = Status.pending := by
  constructor
  · intro hx
    obtain ⟨v, hv, hvid⟩ := List.mem_map.mp hx
    have hvf := List.mem_filter.mp hv
    have hvu : v = u := List.inj_on_of_nodup_map hn hvf.1 hu hvid
    subst hvu
    simpa using hvf.2
  · intro h
    exact List.mem_map_of_mem _ (List.mem_filter.mpr ⟨hu, by simp [h]⟩)

/-- Delivering by an id set that captures exactly the pending utterances
is the same as delivering the pending utterances. -/
theorem map_mark_eq_deliverPending {us : List Utterance} {ids : List String}
    (hiff : ∀ u ∈ us, (u.id ∈ ids ↔ u.status = Status.pending)) :
    us.map (fun u => if u.id ∈ ids then setDelivered u else u) = us.map deliverPending :=
  List.map_congr_left fun u hu => by
    by_cases h : u.status = Status.pending
    · rw [if_pos ((hiff u hu).mpr h), deliverPending, if_pos h]
      rfl
    · rw [if_neg (fun hx => h ((hiff u hu).mp hx)), deliverPending, if_neg h]

/-- A queue whose pending utterances have all been delivered holds no
pending utterance. -/
theorem pendingList_map_deliverPending (us : List Utterance) :
    (us.map deliverPending).filter (fun u => u.status == Status.pending) = [] := by
  rw [List.filter_eq_nil_iff]
  intro a ha
  obtain ⟨u, _, rfl⟩ := List.mem_map.mp ha
  by_cases h : u.status = Status.pending <;> simp [deliverPending, h]


/-- C3: the dequeue operation fails with an explicit error and changes no
state when voice input is inactive; otherwise it returns success with the
text and timestamp of every pending utterance from every session queue
and the legacy global queue, sorted newest-first, having marked exactly
those utterances delivered in their owning queues — so that afterwards no
queue anywhere contains a pending utterance. -/
theorem dequeueUtterancesCore_spec (st : ServerState) (hwf : WellFormedIds st) :
    (st.voicePreferences.voiceInputActive = false →
      dequeueUtterancesCore st =
        (⟨false,
          some "Voice input is not active. Cannot dequeue utterances when voice input is disabled.",
          none⟩, st)) ∧
    (st.voicePreferences.voiceInputActive = true →
      ∃ outs, (dequeueUtterancesCore st).1 = ⟨true, none, some outs⟩ ∧
        outs.Pairwise (fun a b => b.timestamp ≤ a.timestamp) ∧
        List.Perm outs
          ((pendingAnywhere st).map (fun u => (⟨u.text, u.timestamp⟩ : DequeuedUtterance))) ∧
        (dequeueUtterancesCore st).2.queue.utterances =
          st.queue.utterances.map deliverPending ∧
        (dequeueUtterancesCore st).2.sessionManager.sessions =
          st.sessionManager.sessions.map (fun s =>
            { s with utteranceQueue := ⟨s.utteranceQueue.utterances.map deliverPending⟩ }) ∧
        (dequeueUtterancesCore st).2.sessionManager.activeSessionId =
          st.sessionManager.activeSessionId ∧
        (dequeueUtterancesCore st).2.lastToolUseTimestamp = st.lastToolUseTimestamp ∧
        (dequeueUtterancesCore st).2.lastSpeakTimestamp = st.lastSpeakTimestamp ∧
        (dequeueUtterancesCore st).2.voicePreferences = st.voicePreferences ∧
        pendingAnywhere (dequeueUtterancesCore st).2 = []) := by
  obtain ⟨hnS, hnG, hnQ⟩ := hwf
  constructor
  · intro ha
    unfold dequeueUtterancesCore
    simp [ha]
  · intro hin
    have hcore := dequeueUtterancesCore_active st hin
    have hpermC : List.Perm
        (List.insertionSort (fun a b => b.utterance.timestamp ≤ a.utterance.timestamp)
          (collectPendingItems st))
        (taggedPending st) :=
      (List.perm_insertionSort _ _).trans (collectPendingItems_perm st hnS)
    have hst2 : (dequeueUtterancesCore st).2 =
        { st with
          queue := ⟨markIds st.queue.utterances (globalTargets
            (List.insertionSort (fun a b => b.utterance.timestamp ≤ a.utterance.timestamp)
              (collectPendingItems st)))⟩
          sessionManager :=
            { st.sessionManager with
              sessions := st.sessionManager.sessions.map (fun s =>
                { s with
                  utteranceQueue := ⟨markIds s.utteranceQueue.utterances
                    (sessionTargets
                      (List.insertionSort
                        (fun a b => b.utterance.timestamp ≤ a.utterance.timestamp)
                        (collectPendingItems st)) s.id)⟩ }) } } := by
      rw [hcore]
      exact foldl_markPendingItem_spec _ _
    have hqueue : (dequeueUtterancesCore st).2.queue.utterances =
        st.queue.utterances.map deliverPending := by
      rw [hst2]
      show markIds st.queue.utterances _ = _
      rw [markIds_eq_map hnG]
      refine map_mark_eq_deliverPending ?_
      intro u hu
      have hpg : List.Perm
          (globalTargets
            (List.insertionSort (fun a b => b.utterance.timestamp ≤ a.utterance.timestamp)
              (collectPendingItems st)))
          (globalTargets (taggedPending st)) := hpermC.filterMap _
      rw [hpg.mem_iff, globalTargets_taggedPending]
      exact mem_pending_ids_iff hnG hu
    have hsessions : (dequeueUtterancesCore st).2.sessionManager.sessions =
        st.sessionManager.sessions.map (fun s =>
          { s with utteranceQueue := ⟨s.utteranceQueue.utterances.map deliverPending⟩ }) := by
      rw [hst2]
      refine List.map_congr_left ?_
      intro s hs
      have hq := hnQ s hs
      have hmk : markIds s.utteranceQueue.utterances
          (sessionTargets
            (List.insertionSort (fun a b => b.utterance.timestamp ≤ a.utterance.timestamp)
              (collectPendingItems st)) s.id) =
          s.utteranceQueue.utterances.map deliverPending := by
        rw [markIds_eq_map hq]
        refine map_mark_eq_deliverPending ?_
        intro u hu
        have hps : List.Perm
            (sessionTargets
              (List.insertionSort (fun a b => b.utterance.timestamp ≤ a.utterance.timestamp)
                (collectPendingItems st)) s.id)
            (sessionTargets (taggedPending st) s.id) := hpermC.filterMap _
        rw [hps.mem_iff, mem_sessionTargets_taggedPending st hnS s hs]
        exact mem_pending_ids_iff hq hu
      rw [hmk]
    refine ⟨_, by rw [hcore], ?_, ?_, hqueue, hsessions, ?_, ?_, ?_, ?_, ?_⟩
    · haveI : IsTotal PendingItem
          (fun a b => b.utterance.timestamp ≤ a.utterance.timestamp) :=
        ⟨fun a b => Int.le_total _ _⟩
      haveI : IsTrans PendingItem
          (fun a b => b.utterance.timestamp ≤ a.utterance.timestamp) :=
        ⟨fun _ _ _ hab hbc => le_trans hbc hab⟩
      exact List.Pairwise.map _ (fun a b h => h) (List.sorted_insertionSort _ _)
    · have hmap := hpermC.map
        (fun it => (⟨it.utterance.text, it.utterance.timestamp⟩ : DequeuedUtterance))
      have heq : (taggedPending st).map
          (fun it => (⟨it.utterance.text, it.utterance.timestamp⟩ : DequeuedUtterance)) =
          (pendingAnywhere st).map (fun u => (⟨u.text, u.timestamp⟩ : DequeuedUtterance)) := by
        unfold taggedPending pendingAnywhere sessionsPending
        simp [List.map_flatMap, List.map_map, Function.comp_def]
      rw [heq] at hmap
      exact hmap
    · rw [hst2]
    · rw [hst2]
    · rw [hst2]
    · rw [hst2]
    · rw [List.eq_nil_iff_forall_not_mem]
      intro x hx
      rcases List.mem_append.mp hx with hxl | hxr
      · obtain ⟨s', hs', hx'⟩ := List.mem_flatMap.mp hxl
        rw [hsessions] at hs'
        obtain ⟨s, _, rfl⟩ := List.mem_map.mp hs'
        have hx2 : x ∈ (s.utteranceQueue.utterances.map deliverPending).filter
            (fun u => u.status == Status.pending) := hx'
        rw [pendingList_map_deliverPending] at hx2
        exact List.not_mem_nil x hx2
      · have hx2 : x ∈ ((dequeueUtterancesCore st).2.queue.utterances).filter
            (fun u => u.status == Status.pending) := hxr
        rw [hqueue, pendingList_map_deliverPending] at hx2
        exact List.not_mem_nil x hx2


/-- State for the C3 witness: two pending utterances in a session queue
and one pending utterance in the legacy global queue, voice input
active. -/
def c3State : ServerState :=
  ⟨⟨[⟨"s1", none, none, 0, true,
      ⟨[⟨"u1", "hello", 5, Status.pending⟩, ⟨"u2", "old", 1, Status.pending⟩]⟩,
      ⟨none, none, none⟩⟩], some "s1"⟩,
   ⟨[⟨"g1", "gq", 3, Status.pending⟩]⟩, none, none, ⟨false, true⟩⟩

/-- Witness for C3 at a concrete input: the dequeue succeeds and no queue
anywhere holds a pending utterance afterwards. -/
theorem dequeueUtterancesCore_spec_witness :
    pendingAnywhere (dequeueUtterancesCore c3State).2 = [] ∧
    (dequeueUtterancesCore c3State).1.success = true := by
  have hwf : WellFormedIds c3State := by
    refine ⟨by decide, by decide, ?_⟩
    intro s hs
    simp only [c3State] at hs
    rcases List.mem_singleton.mp hs with rfl
    decide
  have h := (dequeueUtterancesCore_spec c3State hwf).2 rfl
  obtain ⟨outs, h1, _, _, _, _, _, _, _, _, h10⟩ := h
  exact ⟨h10, by rw [h1]⟩

end VoiceHooks
